import Mathlib

/-!
# Verification of systemd-boot-manager core logic

Shallow embedding of `src/usr/lib/python3/dist-packages/systemd_boot_manager/__init__.py`
(and its caller `src/usr/share/systemd-boot-manager/service.py`), together with
theorems settling the frozen claims about kernel-version ordering, kernel
cataloguing, root-pointer resolution, boot-entry rendering and default-entry
reconciliation.

Modelling conventions:
* Python machine state that the module reads (configuration files, `lsblk`
  output, directory listings) is passed explicitly as values.
* A Python function that can terminate the interpreter (via `sys.exit`, an
  uncaught exception, or the out-of-module `failure()` helper) is embedded as
  `Except PyFatal _`.
* Character classes follow the ASCII reading of the source's regexes and
  string methods (the inputs handled by the program are ASCII).
-/

namespace SystemdBootManager

/-- Fatal terminations of a Python invocation: `sys.exit`-style exits with a
status code and uncaught exceptions. -/
inductive PyFatal where
  | exitCode (n : Nat)
  | attributeError
  | valueError
  | fileNotFoundError
  | indexError
deriving DecidableEq, Repr

/-! ## Python sequence and string comparison semantics -/

/-- Python list/tuple comparison: compare elementwise; the first differing
position decides; otherwise the shorter sequence is smaller. -/
def pySeqCmp (cmp : α → α → Ordering) : List α → List α → Ordering
  | [], [] => .eq
  | [], _ :: _ => .lt
  | _ :: _, [] => .gt
  | a :: as, b :: bs =>
    match cmp a b with
    | .eq => pySeqCmp cmp as bs
    | o => o

/-- Python `str` comparison: lexicographic by code point. -/
def pyCharCmp (a b : Char) : Ordering := compare a.val b.val

/-- Python string comparison over the characters of the two strings. -/
def pyStrCmp (a b : String) : Ordering := pySeqCmp pyCharCmp a.data b.data

/-! ## Decimal rendering of integers (Python `str(int)` / f-strings)

We use a fuel-based structural recursion so that the kernel can evaluate it
(`Nat.digits`-style well-founded recursion does not reduce under `decide`). -/

/-- Little-endian decimal digits of `n`, with `fuel ≥ n` guaranteeing
completion; used only through `natStr`. -/
def natDigitsRev (fuel n : Nat) : List Char :=
  match fuel with
  | 0 => []
  | fuel + 1 => if n = 0 then [] else Nat.digitChar (n % 10) :: natDigitsRev fuel (n / 10)

/-- Decimal rendering of a natural number, as Python's `str(int)` renders a
non-negative int. -/
def natStr (n : Nat) : String :=
  if n = 0 then "0" else ((natDigitsRev n n).reverse).asString

/-- Numeric value of a decimal digit character. -/
def charDigitVal (c : Char) : Nat := c.toNat - 48

/-- Little-endian reconstruction of a number from digit characters; a
retraction of `natDigitsRev` used to prove `natStr` injective. -/
def recNat : List Char → Nat
  | [] => 0
  | c :: cs => charDigitVal c + 10 * recNat cs

theorem charDigitVal_digitChar : ∀ m, m < 10 → charDigitVal (Nat.digitChar m) = m := by
  decide

theorem recNat_natDigitsRev : ∀ fuel n, n ≤ fuel → recNat (natDigitsRev fuel n) = n := by
  intro fuel
  induction fuel with
  | zero => intro n h; interval_cases n; rfl
  | succ fuel ih =>
    intro n h
    by_cases h0 : n = 0
    · subst h0; simp [natDigitsRev, recNat]
    · have hlt : n / 10 < n := Nat.div_lt_self (Nat.pos_of_ne_zero h0) (by norm_num)
      have hle : n / 10 ≤ fuel := by omega
      simp only [natDigitsRev, h0, if_false, recNat]
      rw [ih (n / 10) hle, charDigitVal_digitChar (n % 10) (Nat.mod_lt n (by norm_num))]
      omega

theorem recNat_reverse_natStr : ∀ n, recNat ((natStr n).data).reverse = n := by
  intro n
  by_cases h0 : n = 0
  · subst h0; rfl
  · simp only [natStr, h0, if_false, List.asString]
    rw [List.reverse_reverse]
    exact recNat_natDigitsRev n n (Nat.le_refl n)

theorem natStr_injective : Function.Injective natStr := by
  intro m n h
  have := recNat_reverse_natStr m
  rw [h, recNat_reverse_natStr n] at this
  omega

/-! ## `LooseVersion` (lines 596-723 of `__init__.py`)

`component_re = re.compile(r'(\d+ | [a-z]+ | \.)', re.VERBOSE)` and
`parse` splits a version string on maximal digit runs, maximal lowercase
runs and single periods; matched periods and empty separator chunks are
dropped (`if x and x != '.'`), and `int()` conversion is attempted on every
kept component.  A component that is not a pure digit run keeps no digits at
all (separator chunks contain no digit, lowercase or period characters), so
`int()` conversion succeeds exactly on the digit runs. -/

/-- Character classes distinguished by `component_re`. -/
inductive CClass where
  | digit
  | lower
  | dot
  | other
deriving DecidableEq, Repr

/-- Class of a character for `component_re`: a decimal digit, a lowercase
ASCII letter, a period, or anything else (separator text). -/
def cclass (c : Char) : CClass :=
  if c.isDigit then .digit
  else if 'a' ≤ c ∧ c ≤ 'z' then .lower
  else if c = '.' then .dot
  else .other

/-- Boolean test for membership in a character class. -/
def isClass (k : CClass) (c : Char) : Bool := decide (cclass c = k)

/-- A parsed version component: an integer (digit run) or a string
(lowercase run or separator chunk). -/
inductive VComp where
  | num (n : Nat)
  | str (s : String)
deriving DecidableEq, Repr

/-- Numeric value of a digit run, as `int()` computes it. -/
def digitsToNat (cs : List Char) : Nat :=
  cs.foldl (fun a c => 10 * a + charDigitVal c) 0

/-- The scanning loop of `component_re.split` followed by the component
filter and `int()` conversion of `LooseVersion.parse`: `junk` accumulates
separator characters not yet emitted.  The recursion is structural on a
`fuel` argument (so that the kernel can evaluate it); `fuel ≥ cs.length`
guarantees the `fuel = 0` branch with pending input is never reached. -/
def tokenizeAux (fuel : Nat) (junk : List Char) (cs : List Char) : List VComp :=
  match cs with
  | [] => if junk.isEmpty then [] else [.str junk.asString]
  | c :: rest =>
    match fuel with
    | 0 => []
    | fuel + 1 =>
      let flush : List VComp := if junk.isEmpty then [] else [.str junk.asString]
      match cclass c with
      | .digit =>
        flush ++ (.num (digitsToNat (c :: rest.takeWhile (isClass .digit))) ::
          tokenizeAux fuel [] (rest.dropWhile (isClass .digit)))
      | .lower =>
        flush ++ (.str (c :: rest.takeWhile (isClass .lower)).asString ::
          tokenizeAux fuel [] (rest.dropWhile (isClass .lower)))
      | .dot => flush ++ tokenizeAux fuel [] rest
      | .other => tokenizeAux fuel (junk ++ [c]) rest

/-- Embedding of `LooseVersion.parse` (lines 681-694): the component list stored in
`self.version`. -/
def LooseVersion.parse (s : String) : List VComp := tokenizeAux s.data.length [] s.data

/-- Test `all(isinstance(part, int) for part in version)`. -/
def allNum (v : List VComp) : Bool :=
  v.all fun x => match x with | .num _ => true | .str _ => false

/-- Value of an all-int component (used only under `allNum`). -/
def vcompNat : VComp → Nat
  | .num n => n
  | .str _ => 0

/-- Python `str(part)` for a component. -/
def vcompStr : VComp → String
  | .num n => natStr n
  | .str s => s

/-- Embedding of `LooseVersion._cmp` (lines 702-720) on two parsed component lists:
if both lists are all-int, compare the int lists with Python list
comparison; otherwise stringify every component of both lists and compare
the string lists. -/
def LooseVersion.cmpCore (v w : List VComp) : Ordering :=
  if allNum v ∧ allNum w then pySeqCmp compare (v.map vcompNat) (w.map vcompNat)
  else pySeqCmp pyStrCmp (v.map vcompStr) (w.map vcompStr)

/-- Comparison of two version strings through `LooseVersion`, `none`
modelling the `AttributeError` raised when either string is empty: the
constructor (line 644-646) only calls `parse` when `vstring` is truthy, so
comparing a `LooseVersion` built from `""` reads the missing attribute
`self.version` and raises. -/
def looseCmpOpt (s t : String) : Option Ordering :=
  if s = "" ∨ t = "" then none
  else some (LooseVersion.cmpCore (LooseVersion.parse s) (LooseVersion.parse t))

/-- Embedding of `LooseVersion.__lt__` as used by `sorted(key=LooseVersion)`. -/
def looseLt (s t : String) : Bool := looseCmpOpt s t == some .lt

/-! ## Reference comparator (claim C3)

The claim describes a reference for the comparison: decompose each string
into components by splitting on digit runs, lowercase-letter runs and
periods (periods dropped), converting digit runs to integers; if every
component of both sides is an integer compare the integer sequences with
Python tuple semantics, otherwise stringify every component of both sides
and compare the string sequences the same way.  `refDecompose` and
`refVersionCmp` formalise that description directly, by grouping maximal
runs of same-class characters. -/

/-- Component emitted by the reference decomposition for one maximal run of
same-class characters: digit runs convert to integers, period runs are
dropped, all other runs stay strings. -/
def refEmit (k : CClass) (run : List Char) : List VComp :=
  match k with
  | .digit => [.num (digitsToNat run)]
  | .dot => []
  | .lower => [.str run.asString]
  | .other => [.str run.asString]

/-- Reference decomposition of a version string into components, as the
claim words it. -/
def refDecompose (cs : List Char) : List VComp :=
  match cs with
  | [] => []
  | c :: rest =>
    refEmit (cclass c) (c :: rest.takeWhile (isClass (cclass c))) ++
      refDecompose (rest.dropWhile (isClass (cclass c)))
termination_by cs.length
decreasing_by
  simp only [List.length_cons]
  exact Nat.lt_succ_of_le (List.dropWhile_sublist _).length_le

/-- The claim's reference comparison of two version strings. -/
def refVersionCmp (s t : String) : Ordering :=
  let v := refDecompose s.data
  let w := refDecompose t.data
  if allNum v ∧ allNum w then pySeqCmp compare (v.map vcompNat) (w.map vcompNat)
  else pySeqCmp pyStrCmp (v.map vcompStr) (w.map vcompStr)

theorem refDecompose_nil : refDecompose [] = [] := by
  rw [refDecompose]

theorem refDecompose_cons (c : Char) (rest : List Char) :
    refDecompose (c :: rest) =
      refEmit (cclass c) (c :: rest.takeWhile (isClass (cclass c))) ++
        refDecompose (rest.dropWhile (isClass (cclass c))) := by
  rw [refDecompose]

theorem tokenizeAux_nil (fuel : Nat) (junk : List Char) :
    tokenizeAux fuel junk [] = if junk.isEmpty then [] else [.str junk.asString] := by
  rw [tokenizeAux]

theorem tokenizeAux_digit {c : Char} (fuel : Nat) (junk rest : List Char) (h : cclass c = .digit) :
    tokenizeAux (fuel + 1) junk (c :: rest) =
      (if junk.isEmpty then [] else [.str junk.asString]) ++
        (.num (digitsToNat (c :: rest.takeWhile (isClass .digit))) ::
          tokenizeAux fuel [] (rest.dropWhile (isClass .digit))) := by
  rw [tokenizeAux, h]

theorem tokenizeAux_lower {c : Char} (fuel : Nat) (junk rest : List Char) (h : cclass c = .lower) :
    tokenizeAux (fuel + 1) junk (c :: rest) =
      (if junk.isEmpty then [] else [.str junk.asString]) ++
        (.str (c :: rest.takeWhile (isClass .lower)).asString ::
          tokenizeAux fuel [] (rest.dropWhile (isClass .lower))) := by
  rw [tokenizeAux, h]

theorem tokenizeAux_dot {c : Char} (fuel : Nat) (junk rest : List Char) (h : cclass c = .dot) :
    tokenizeAux (fuel + 1) junk (c :: rest) =
      (if junk.isEmpty then [] else [.str junk.asString]) ++ tokenizeAux fuel [] rest := by
  rw [tokenizeAux, h]

theorem tokenizeAux_other {c : Char} (fuel : Nat) (junk rest : List Char) (h : cclass c = .other) :
    tokenizeAux (fuel + 1) junk (c :: rest) = tokenizeAux fuel (junk ++ [c]) rest := by
  rw [tokenizeAux, h]

theorem isClass_true_of {k : CClass} {c : Char} (h : cclass c = k) : isClass k c = true := by
  simp [isClass, h]

theorem isClass_false_of {k : CClass} {c : Char} (h : cclass c ≠ k) : isClass k c = false := by
  simp [isClass, h]

/-- Unfolding of the reference decomposition over a leading separator chunk
followed by text that does not extend the chunk. -/
theorem refDecompose_junk (j : Char) (js cs : List Char)
    (hj : cclass j = .other) (hjs : ∀ c ∈ js, cclass c = .other)
    (hcs : ∀ c, cs.head? = some c → cclass c ≠ .other) :
    refDecompose ((j :: js) ++ cs) = .str (j :: js).asString :: refDecompose cs := by
  have hjs' : ∀ a ∈ js, isClass .other a = true := fun a ha => isClass_true_of (hjs a ha)
  have htake : cs.takeWhile (isClass .other) = [] := by
    cases cs with
    | nil => rfl
    | cons c r => exact List.takeWhile_cons_of_neg (by simp [isClass_false_of (hcs c rfl)])
  have hdrop : cs.dropWhile (isClass .other) = cs := by
    cases cs with
    | nil => rfl
    | cons c r => exact List.dropWhile_cons_of_neg (by simp [isClass_false_of (hcs c rfl)])
  rw [List.cons_append, refDecompose_cons, hj,
    List.takeWhile_append_of_pos hjs', List.dropWhile_append_of_pos hjs', htake, hdrop,
    List.append_nil, refEmit]
  rfl

/-- Base case: a trailing separator chunk is emitted at end of input. -/
theorem tokenizeAux_nil_eq (fuel : Nat) (junk : List Char)
    (hjunk : ∀ c ∈ junk, cclass c = .other) :
    tokenizeAux fuel junk [] = refDecompose junk := by
  cases junk with
  | nil => simp [tokenizeAux_nil, refDecompose_nil]
  | cons j js =>
    rw [tokenizeAux_nil]
    have h2 : refDecompose (j :: js) = refDecompose ((j :: js) ++ []) := by rw [List.append_nil]
    rw [h2, refDecompose_junk j js [] (hjunk j (by simp)) (fun c hc => hjunk c (by simp [hc]))
      (fun c hc => by simp at hc), refDecompose_nil]
    simp

/-- A leading period run does not change the reference decomposition. -/
theorem refDecompose_dropdots (rest : List Char) :
    refDecompose (rest.dropWhile (isClass .dot)) = refDecompose rest := by
  cases h : rest with
  | nil => rfl
  | cons c r =>
    by_cases hc : cclass c = CClass.dot
    · rw [List.dropWhile_cons_of_pos (isClass_true_of hc), refDecompose_cons, hc, refEmit,
        List.nil_append]
    · rw [List.dropWhile_cons_of_neg (by simp [isClass_false_of hc])]

/-- The scanner of `LooseVersion.parse` computes the reference
decomposition (generalised over the pending separator chunk). -/
theorem tokenizeAux_eq_refDecompose :
    ∀ (n : Nat) (cs junk : List Char), cs.length ≤ n →
      (∀ c ∈ junk, cclass c = .other) →
      tokenizeAux n junk cs = refDecompose (junk ++ cs) := by
  intro n
  induction n with
  | zero =>
    intro cs junk hlen hjunk
    have : cs = [] := List.length_eq_zero.mp (Nat.le_zero.mp hlen)
    subst this
    rw [List.append_nil]
    exact tokenizeAux_nil_eq 0 junk hjunk
  | succ n ih =>
    intro cs junk hlen hjunk
    cases cs with
    | nil =>
      rw [List.append_nil]
      exact tokenizeAux_nil_eq (n + 1) junk hjunk
    | cons c rest =>
      have hrest : rest.length ≤ n := by
        simp only [List.length_cons] at hlen; omega
      have hdroplen : ∀ k : CClass, (rest.dropWhile (isClass k)).length ≤ n :=
        fun k => le_trans (List.dropWhile_sublist (isClass k)).length_le hrest
      cases hc : cclass c with
      | digit =>
        rw [tokenizeAux_digit n junk rest hc, ih _ [] (hdroplen .digit) (by simp)]
        cases junk with
        | nil =>
          rw [List.nil_append, List.nil_append, refDecompose_cons, hc, refEmit]
          rfl
        | cons j js =>
          rw [refDecompose_junk j js (c :: rest) (hjunk j (by simp))
            (fun a ha => hjunk a (by simp [ha]))
            (fun a ha => by simp at ha; subst ha; simp [hc]),
            refDecompose_cons, hc, refEmit]
          simp [List.isEmpty]
      | lower =>
        rw [tokenizeAux_lower n junk rest hc, ih _ [] (hdroplen .lower) (by simp)]
        cases junk with
        | nil =>
          rw [List.nil_append, List.nil_append, refDecompose_cons, hc, refEmit]
          rfl
        | cons j js =>
          rw [refDecompose_junk j js (c :: rest) (hjunk j (by simp))
            (fun a ha => hjunk a (by simp [ha]))
            (fun a ha => by simp at ha; subst ha; simp [hc]),
            refDecompose_cons, hc, refEmit]
          simp [List.isEmpty]
      | dot =>
        rw [tokenizeAux_dot n junk rest hc, ih _ [] hrest (by simp)]
        cases junk with
        | nil =>
          rw [List.nil_append, List.nil_append, refDecompose_cons, hc, refEmit,
            List.nil_append, refDecompose_dropdots]
          simp
        | cons j js =>
          rw [refDecompose_junk j js (c :: rest) (hjunk j (by simp))
            (fun a ha => hjunk a (by simp [ha]))
            (fun a ha => by simp at ha; subst ha; simp [hc]),
            refDecompose_cons, hc, refEmit, List.nil_append, refDecompose_dropdots]
          simp [List.isEmpty]
      | other =>
        rw [tokenizeAux_other n junk rest hc,
          ih rest (junk ++ [c]) hrest
            (fun a ha => by
              rcases List.mem_append.mp ha with h | h
              · exact hjunk a h
              · simp at h; rw [h]; exact hc)]
        rw [List.append_assoc]
        rfl

/-- The parser `LooseVersion.parse` agrees with the reference decomposition. -/
theorem parse_eq_refDecompose (s : String) : LooseVersion.parse s = refDecompose s.data :=
  tokenizeAux_eq_refDecompose s.data.length s.data [] (Nat.le_refl _) (by simp)

/-! ## Claim C3 -/

/-- C3 (amended): for every pair of non-empty version strings,
`LooseVersion` comparison equals the reference comparison described by the
claim: decompose into digit runs, lowercase runs and periods (periods
dropped, digit runs converted to integers); if every component of both
sides is an integer compare the integer sequences with Python tuple
semantics, otherwise stringify every component of both sides and compare
the string sequences the same way. -/
theorem c3_looseversion_matches_reference (s t : String) (hs : s ≠ "") (ht : t ≠ "") :
    looseCmpOpt s t = some (refVersionCmp s t) := by
  unfold looseCmpOpt
  rw [if_neg (by rintro (h | h); exact hs h; exact ht h),
    parse_eq_refDecompose s, parse_eq_refDecompose t]
  rfl

/-- Witness for `c3_looseversion_matches_reference`: the two digit-group
examples named by the claim. -/
theorem c3_looseversion_matches_reference_witness :
    looseCmpOpt "5.9" "5.10" = some (refVersionCmp "5.9" "5.10") ∧
    looseCmpOpt "5.10" "5.9.1" = some (refVersionCmp "5.10" "5.9.1") :=
  ⟨c3_looseversion_matches_reference "5.9" "5.10" (by decide) (by decide),
   c3_looseversion_matches_reference "5.10" "5.9.1" (by decide) (by decide)⟩

/-- C3 counterexample: the claim quantifies over every pair of version
strings, but `LooseVersion("")` never runs `parse` (the constructor guard
`if vstring:` is falsy), so comparing it raises `AttributeError` (modelled
as `none`) instead of producing the reference result `lt`. -/
theorem c3_counterexample_empty_string :
    looseCmpOpt "" "1" = none ∧ refVersionCmp "" "1" = Ordering.lt := by
  refine ⟨rfl, ?_⟩
  unfold refVersionCmp
  rw [← parse_eq_refDecompose, ← parse_eq_refDecompose]
  decide

/-! ## Python string primitives used by the kernel catalog -/

/-- Substring containment over character lists (Python `in` on `str`). -/
def listContains (needle : List Char) : List Char → Bool
  | [] => needle.isEmpty
  | c :: rest => needle.isPrefixOf (c :: rest) || listContains needle rest

/-- Python `needle in hay` for strings. -/
def pyIn (needle hay : String) : Bool := listContains needle.data hay.data

/-- Python `s[-k:]`: the last `k` characters (the whole string when it is
shorter). -/
def lastN (k : Nat) (s : String) : String := ⟨s.data.drop (s.data.length - k)⟩

/-- Worker for `pySplit`: accumulates the current piece reversed. -/
def splitCharAux (sep : Char) (cur : List Char) : List Char → List String
  | [] => [cur.reverse.asString]
  | c :: rest =>
    if c = sep then cur.reverse.asString :: splitCharAux sep [] rest
    else splitCharAux sep (c :: cur) rest

/-- Python `s.split(sep)` for a one-character separator: always returns at
least one piece, and keeps empty pieces. -/
def pySplit (sep : Char) (s : String) : List String := splitCharAux sep [] s.data

/-- Python `s.split("\n")[0]`. -/
def firstLine (s : String) : String := (pySplit '\n' s).headD ""

/-! ## `get_kernel_versions` (lines 562-593)

The `/boot` directory listing is passed in as a list of filenames.  The
helpers `error` and `failure` called on lines 574-575 are not defined in
the library sources under `src/` (they live in the command-line front end);
`failure` is modelled from the spec below. -/

/-- Modelled from the spec: the `failure` helper used by
`get_kernel_versions` is missing from the sources under `src/` (only its
call site is present).  The spec says fatal conditions "terminate the
invocation with a distinct non-zero status per condition class", so
`failure n` terminates the invocation with exit status `n`. -/
def failure (n : Nat) : PyFatal := .exitCode n

/-- The filtering loop of `get_kernel_versions` (lines 566-571): keep names
containing `vmlinuz-` whose last nine characters do not contain
`.dpkg-tmp`. -/
def filterKernels (listing : List String) : List String :=
  listing.filter fun n => pyIn "vmlinuz-" n && ! pyIn ".dpkg-tmp" (lastN 9 n)

/-- Python `dict` assignment `d[k] = v` on an insertion-ordered association
list: replace in place if the key exists, else append. -/
def dinsert (k v : String) : List (String × String) → List (String × String)
  | [] => [(k, v)]
  | (k', v') :: rest => if k' = k then (k, v) :: rest else (k', v') :: dinsert k v rest

/-- Python `k in d`. -/
def dmem (k : String) (d : List (String × String)) : Bool :=
  d.any fun kv => kv.1 == k

/-- Python `d[k]` for a key known to be present (`""` on the absent-key
`KeyError`, which the call sites below never reach). -/
def dget (d : List (String × String)) (k : String) : String :=
  match d.find? (fun kv => kv.1 == k) with
  | some kv => kv.2
  | none => ""

/-- Python `each.split("-")[1:]`: the dash-separated tokens after the image-name
token. -/
def versionTokens (name : String) : List String := (pySplit '-' name).drop 1

/-- The key format `f"X.p"` of line 583: the major token, a period, and the decimal patch index. -/
def synthKeyOf (base : String) (p : Nat) : String := base ++ "." ++ natStr p

/-- The `while f"..." in kernel_verts: patch_version += 1` loop of lines
580-582, searching from `p` with structural fuel.  With fuel
`d.length + 1` the search always ends at a key not in `d` before fuel runs
out (`synthPatch_fresh` below), matching the Python loop, which terminates
at the least free patch index. -/
def synthGo (base : String) (d : List (String × String)) : Nat → Nat → Nat
  | 0, p => p
  | fuel + 1, p => if dmem (synthKeyOf base p) d then synthGo base d fuel (p + 1) else p

/-- The synthetic patch index assigned to a colliding major version key. -/
def synthPatch (base : String) (d : List (String × String)) : Nat :=
  synthGo base d (d.length + 1) 1

/-- The `kernel_verts` construction loop (lines 576-586).  `vert[0]` is
modelled as `headD ""`: every name reaching this loop contains `vmlinuz-`,
hence a dash, so `vert` is non-empty. -/
def buildVerts : List String → List (String × String) → List (String × String)
  | [], d => d
  | name :: rest, d =>
    let vert := versionTokens name
    let key :=
      if vert.length > 1 then synthKeyOf (vert.headD "") (synthPatch (vert.headD "") d)
      else vert.headD ""
    buildVerts rest (dinsert key (String.intercalate "-" vert) d)

/-- Stable insertion of `x` after all earlier elements not greater than it;
`sortKeys` below models Python's stable `sorted`. -/
def insertSorted (x : String) : List String → List String
  | [] => [x]
  | y :: ys => if looseLt x y then x :: y :: ys else y :: insertSorted x ys

/-- Embedding of `sorted(list(kernel_verts.keys()), key=LooseVersion)` (line 589),
modelled as a stable insertion sort: Python guarantees a stable sort, and
`LooseVersion` comparison of the non-empty keys reaching this call is a
total preorder, so any stable sort produces this result. -/
def sortKeys (l : List String) : List String :=
  l.foldl (fun acc x => insertSorted x acc) []

/-- Embedding of `get_kernel_versions` (lines 562-593).  The `attributeError` branch
models the crash of `LooseVersion` comparison on an empty key (see
`looseCmpOpt`): with at least two keys Python's sort compares every key at
least once, so an empty key raises; with a single key `sorted` performs no
comparison. -/
def get_kernel_versions (listing : List String) : Except PyFatal (List String) :=
  let kernels := filterKernels listing
  if kernels.length < 1 then .error (failure 1)
  else
    let d := buildVerts kernels []
    let keys := d.map Prod.fst
    if 2 ≤ keys.length ∧ "" ∈ keys then .error .attributeError
    else .ok ((sortKeys keys).map (dget d))

/-- Index 0 of `get_kernel_versions()`, the version used for a `latest` entry by
`generate_loader_entry` (line 420) and `generate_recovery_loader_entry`
(line 456); the list is never empty on the `.ok` path. -/
def latestKernelVersion (listing : List String) : Except PyFatal String :=
  (get_kernel_versions listing).map fun ks => ks.headD ""

/-! ## Dictionary, freshness and sorting lemmas for the kernel catalog -/

theorem dmem_iff (k : String) (d : List (String × String)) :
    dmem k d = true ↔ k ∈ d.map Prod.fst := by
  simp [dmem, List.any_eq_true, List.mem_map, beq_iff_eq]

theorem dinsert_eq_append (k v : String) (d : List (String × String))
    (h : dmem k d = false) : dinsert k v d = d ++ [(k, v)] := by
  induction d with
  | nil => rfl
  | cons kv rest ih =>
    simp only [dmem, List.any_cons, Bool.or_eq_false_iff, beq_eq_false_iff_ne] at h
    obtain ⟨h1, h2⟩ := h
    cases kv with
    | mk k' v' =>
      simp only [dinsert, if_neg h1, List.cons_append, List.cons.injEq, true_and]
      exact ih h2

theorem synthKeyOf_injective (base : String) : Function.Injective (synthKeyOf base) := by
  intro p q h
  have hd := congrArg String.data h
  simp only [synthKeyOf, String.data_append] at hd
  have := List.append_cancel_left hd
  have hs : natStr p = natStr q := by
    cases hp : natStr p with
    | mk dp =>
      cases hq : natStr q with
      | mk dq => rw [hp, hq] at this; simp at this; rw [this]
  exact natStr_injective hs

theorem synthKeyOf_ne_empty (base : String) (p : Nat) : synthKeyOf base p ≠ "" := by
  intro h
  have := congrArg String.length h
  simp only [synthKeyOf, String.length_append] at this
  have h1 : ("." : String).length = 1 := rfl
  have h0 : ("" : String).length = 0 := rfl
  omega

theorem exists_fresh (base : String) (d : List (String × String)) :
    ∃ q, q < d.length + 1 ∧ dmem (synthKeyOf base (q + 1)) d = false := by
  by_contra hcon
  push_neg at hcon
  have hall : ∀ q < d.length + 1, dmem (synthKeyOf base (q + 1)) d = true := by
    intro q hq
    rcases Bool.eq_false_or_eq_true (dmem (synthKeyOf base (q + 1)) d) with h | h
    · exact h
    · exact absurd h (hcon q hq)
  have hinj : Function.Injective fun q : Nat => synthKeyOf base (q + 1) :=
    fun a b h => by
      have := synthKeyOf_injective base h
      omega
  have hsub : (Finset.range (d.length + 1)).image (fun q => synthKeyOf base (q + 1)) ⊆
      (d.map Prod.fst).toFinset := by
    intro x hx
    simp only [Finset.mem_image, Finset.mem_range] at hx
    obtain ⟨q, hq, rfl⟩ := hx
    exact List.mem_toFinset.mpr ((dmem_iff _ _).mp (hall q hq))
  have hcard := Finset.card_le_card hsub
  rw [Finset.card_image_of_injective _ hinj, Finset.card_range] at hcard
  have := (d.map Prod.fst).toFinset_card_le
  simp only [List.length_map] at this
  omega

theorem synthGo_fresh (base : String) (d : List (String × String)) :
    ∀ fuel p, (∃ q, p ≤ q ∧ q < p + fuel ∧ dmem (synthKeyOf base q) d = false) →
      dmem (synthKeyOf base (synthGo base d fuel p)) d = false := by
  intro fuel
  induction fuel with
  | zero => rintro p ⟨q, h1, h2, _⟩; omega
  | succ fuel ih =>
    rintro p ⟨q, h1, h2, h3⟩
    by_cases hp : dmem (synthKeyOf base p) d = true
    · have hqp : q ≠ p := by
        intro e; rw [e] at h3; rw [h3] at hp; simp at hp
      simp only [synthGo, hp, if_true]
      exact ih (p + 1) ⟨q, by omega, by omega, h3⟩
    · have hp' : dmem (synthKeyOf base p) d = false := by
        cases hdm : dmem (synthKeyOf base p) d
        · rfl
        · exact absurd hdm hp
      simp only [synthGo, hp', if_false]
      exact hp'

theorem synthPatch_fresh (base : String) (d : List (String × String)) :
    dmem (synthKeyOf base (synthPatch base d)) d = false := by
  obtain ⟨q, hq, hfree⟩ := exists_fresh base d
  exact synthGo_fresh base d (d.length + 1) 1 ⟨q + 1, by omega, by omega, hfree⟩

theorem dget_of_mem (d : List (String × String)) (k v : String)
    (hnd : (d.map Prod.fst).Nodup) (hmem : (k, v) ∈ d) : dget d k = v := by
  induction d with
  | nil => simp at hmem
  | cons kv rest ih =>
    simp only [List.map_cons, List.nodup_cons] at hnd
    rcases List.mem_cons.mp hmem with h | h
    · rw [← h]
      simp [dget, List.find?]
    · have hne : kv.1 ≠ k := by
        intro e
        exact hnd.1 (e ▸ (List.mem_map.mpr ⟨(k, v), h, rfl⟩))
      simp only [dget, List.find?, beq_eq_false_iff_ne.mpr hne]
      exact ih hnd.2 h

/-- Full characterisation of the `kernel_verts` build when every processed
image name carries a patch token: every insertion uses a fresh synthetic
key, so the dictionary grows by exactly one entry per image and keeps every
version string. -/
theorem buildVerts_spec :
    ∀ (names : List String) (d : List (String × String)),
      (∀ n ∈ names, 1 < (versionTokens n).length) →
      (d.map Prod.fst).Nodup →
      ((buildVerts names d).map Prod.fst).Nodup ∧
        (buildVerts names d).length = d.length + names.length ∧
        (∀ kv ∈ d, kv ∈ buildVerts names d) ∧
        (∀ n ∈ names,
          ∃ k, (k, String.intercalate "-" (versionTokens n)) ∈ buildVerts names d) ∧
        (∀ kv ∈ buildVerts names d, kv ∈ d ∨ ∃ base p, kv.1 = synthKeyOf base p) := by
  intro names
  induction names with
  | nil =>
    intro d _ hnd
    refine ⟨hnd, by simp [buildVerts], fun kv h => h, by simp, fun kv h => Or.inl h⟩
  | cons name rest ih =>
    intro d hall hnd
    have hlen : 1 < (versionTokens name).length := hall name (List.mem_cons_self _ _)
    have hkey : (if (versionTokens name).length > 1 then
        synthKeyOf ((versionTokens name).headD "")
          (synthPatch ((versionTokens name).headD "") d)
        else (versionTokens name).headD "") =
        synthKeyOf ((versionTokens name).headD "")
          (synthPatch ((versionTokens name).headD "") d) := by
      rw [if_pos hlen]
    have hfresh := synthPatch_fresh ((versionTokens name).headD "") d
    have hstep : buildVerts (name :: rest) d =
        buildVerts rest (d ++ [(synthKeyOf ((versionTokens name).headD "")
          (synthPatch ((versionTokens name).headD "") d),
          String.intercalate "-" (versionTokens name))]) := by
      show buildVerts rest _ = _
      rw [hkey, dinsert_eq_append _ _ _ hfresh]
    set key := synthKeyOf ((versionTokens name).headD "")
      (synthPatch ((versionTokens name).headD "") d) with hkeydef
    set d' := d ++ [(key, String.intercalate "-" (versionTokens name))] with hd'
    have hnd' : (d'.map Prod.fst).Nodup := by
      rw [hd', List.map_append]
      simp only [List.map_cons, List.map_nil]
      rw [List.nodup_append]
      refine ⟨hnd, List.nodup_singleton _, ?_⟩
      intro x hx
      simp only [List.mem_singleton]
      intro e
      subst e
      have : dmem key d = true := (dmem_iff key d).mpr hx
      rw [this] at hfresh
      simp at hfresh
    obtain ⟨ih1, ih2, ih3, ih4, ih5⟩ :=
      ih d' (fun n hn => hall n (List.mem_cons_of_mem _ hn)) hnd'
    rw [hstep]
    refine ⟨ih1, ?_, ?_, ?_, ?_⟩
    · rw [ih2, hd']
      simp only [List.length_append, List.length_cons, List.length_nil]
      omega
    · intro kv hkv
      exact ih3 kv (by rw [hd']; exact List.mem_append_left _ hkv)
    · intro n hn
      rcases List.mem_cons.mp hn with h | h
      · subst h
        exact ⟨key, ih3 _ (by rw [hd']; simp)⟩
      · exact ih4 n h
    · intro kv hkv
      rcases ih5 kv hkv with h | h
      · rw [hd'] at h
        rcases List.mem_append.mp h with h2 | h2
        · exact Or.inl h2
        · simp only [List.mem_singleton] at h2
          subst h2
          exact Or.inr ⟨_, _, rfl⟩
      · exact Or.inr h

theorem insertSorted_perm (x : String) (l : List String) :
    (insertSorted x l).Perm (x :: l) := by
  induction l with
  | nil => exact List.Perm.refl _
  | cons y ys ih =>
    simp only [insertSorted]
    by_cases h : looseLt x y = true
    · rw [if_pos h]
    · rw [if_neg h]
      exact (ih.cons y).trans (List.Perm.swap x y ys)

theorem sortKeys_perm (l : List String) : (sortKeys l).Perm l := by
  have aux : ∀ (l acc : List String),
      (l.foldl (fun a x => insertSorted x a) acc).Perm (acc ++ l) := by
    intro l
    induction l with
    | nil => intro acc; simp
    | cons x xs ih =>
      intro acc
      simp only [List.foldl_cons]
      exact ((ih (insertSorted x acc)).trans
        (((insertSorted_perm x acc).append_right xs).trans List.perm_middle.symm))
  simpa using aux l []

/-! ## Claims C1, C4, C5 -/

/-- C1: the claim says the list returned by `get_kernel_versions` is
ordered newest first and its element at index 0 — the value used as the
kernel version when a `latest` entry is rendered — is the maximum under
`LooseVersion` ordering.  The code instead sorts ascending: with images
`vmlinuz-5.9` and `vmlinuz-5.10` installed, the returned list is oldest
first and index 0 holds `5.9`, which is strictly below `5.10`, so the
`latest` entry is rendered with the minimum, not the maximum. -/
theorem c1_latest_entry_selects_minimum :
    get_kernel_versions ["vmlinuz-5.9", "vmlinuz-5.10"] = .ok ["5.9", "5.10"] ∧
    latestKernelVersion ["vmlinuz-5.9", "vmlinuz-5.10"] = .ok "5.9" ∧
    looseCmpOpt "5.9" "5.10" = some Ordering.lt :=
  ⟨rfl, rfl, by decide⟩

/-- C4: when the boot-directory scan yields zero qualifying kernel-image
filenames, `get_kernel_versions` never returns an empty list silently: it
signals the fatal "no kernels" condition (exit status 1) and aborts the
enclosing operation. -/
theorem c4_zero_kernels_is_fatal (listing : List String)
    (h : filterKernels listing = []) :
    get_kernel_versions listing = .error (failure 1) := by
  simp [get_kernel_versions, h]

/-- Witness for `c4_zero_kernels_is_fatal` at a listing holding no
qualifying kernel image. -/
theorem c4_zero_kernels_is_fatal_witness :
    filterKernels ["README", "initrd.img-5.10"] = [] ∧
    get_kernel_versions ["README", "initrd.img-5.10"] = .error (failure 1) :=
  ⟨rfl, c4_zero_kernels_is_fatal ["README", "initrd.img-5.10"] rfl⟩

/-- C5 counterexample: `vmlinuz-5-generic` computes the synthetic key
`5.1`; the later image `vmlinuz-5.1` has no patch token, computes the same
key `5.1` without any synthetic disambiguation, and overwrites the entry:
the output holds a single element and the version string `5-generic` of the
first image does not appear. -/
theorem c5_counterexample_single_token_overwrites :
    get_kernel_versions ["vmlinuz-5-generic", "vmlinuz-5.1"] = .ok ["5.1"] ∧
    List.elem "5-generic" ["5.1"] = false :=
  ⟨rfl, rfl⟩

/-- C5 (amended): any two images that both carry a patch token receive
distinct synthetic keys; when every qualifying image carries a patch token
the sorted output of `get_kernel_versions` has exactly one element per
image and contains every image's version string.  (An image without a
patch token reuses its bare major token as key and silently overwrites a
colliding earlier entry — see the counterexample.) -/
theorem c5_patch_token_images_all_appear (listing : List String)
    (hall : ∀ n ∈ filterKernels listing, 1 < (versionTokens n).length)
    (hne : filterKernels listing ≠ []) :
    ∃ out, get_kernel_versions listing = .ok out ∧
      out.length = (filterKernels listing).length ∧
      ∀ n ∈ filterKernels listing,
        String.intercalate "-" (versionTokens n) ∈ out := by
  obtain ⟨hnd, hlen, _, hmem, hsrc⟩ :=
    buildVerts_spec (filterKernels listing) [] hall (by simp)
  have hkeys_ne : "" ∉ (buildVerts (filterKernels listing) []).map Prod.fst := by
    intro hin
    obtain ⟨kv, hkv, hfst⟩ := List.mem_map.mp hin
    rcases hsrc kv hkv with h | ⟨base, p, hkp⟩
    · simp at h
    · exact synthKeyOf_ne_empty base p (by rw [← hkp, hfst])
  have hlen_pos : ¬ (filterKernels listing).length < 1 := by
    cases hfk : filterKernels listing with
    | nil => exact absurd hfk hne
    | cons a l => simp [hfk]
  refine ⟨(sortKeys ((buildVerts (filterKernels listing) []).map Prod.fst)).map
    (dget (buildVerts (filterKernels listing) [])), ?_, ?_, ?_⟩
  · simp only [get_kernel_versions]
    rw [if_neg hlen_pos, if_neg (fun hc => hkeys_ne hc.2)]
  · rw [List.length_map, (sortKeys_perm _).length_eq, List.length_map, hlen]
    simp
  · intro n hn
    obtain ⟨k, hk⟩ := hmem n hn
    have hkin : k ∈ (buildVerts (filterKernels listing) []).map Prod.fst :=
      List.mem_map.mpr ⟨(k, String.intercalate "-" (versionTokens n)), hk, rfl⟩
    have hksort : k ∈ sortKeys ((buildVerts (filterKernels listing) []).map Prod.fst) :=
      ((sortKeys_perm _).mem_iff).mpr hkin
    exact List.mem_map.mpr ⟨k, hksort, dget_of_mem _ k _ hnd hk⟩

/-- Witness for `c5_patch_token_images_all_appear` at two images sharing
the major version token `5`. -/
theorem c5_patch_token_images_all_appear_witness :
    ∃ out, get_kernel_versions ["vmlinuz-5-generic", "vmlinuz-5-lowlatency"] = .ok out ∧
      out.length = (filterKernels ["vmlinuz-5-generic", "vmlinuz-5-lowlatency"]).length ∧
      ∀ n ∈ filterKernels ["vmlinuz-5-generic", "vmlinuz-5-lowlatency"],
        String.intercalate "-" (versionTokens n) ∈ out :=
  c5_patch_token_images_all_appear ["vmlinuz-5-generic", "vmlinuz-5-lowlatency"]
    (by decide) (by decide)

/-! ## Devices and root-pointer resolution (lines 268-314 and 489-559)

`lsblk` output is modelled as a list of parsed records.  The columns a
record exposes depend on which query succeeded; the legacy branch of
`get_root_pointer` tries `path,uuid,partuuid,label`, then
`path,uuid,partuuid`, then `path,uuid` (lines 517-529), encoded by
`LsblkCols`. -/

/-- A parsed `lsblk` record: path, device type, mount point and the three
identifying keys; absent or null JSON values are `none`. -/
structure Device where
  path : String
  dtype : String
  mountpoint : Option String
  uuid : Option String
  partuuid : Option String
  label : Option String
deriving DecidableEq, Repr

/-- Python `str.lower()` (ASCII). -/
def pyLower (s : String) : String := ⟨s.data.map Char.toLower⟩

/-- Python `str.upper()` (ASCII). -/
def pyUpper (s : String) : String := ⟨s.data.map Char.toUpper⟩

/-- Python f-string interpolation of a value that may be `None`. -/
def pyOptStr : Option String → String
  | some s => s
  | none => "None"

/-- Embedding of `get_devices` (lines 299-314): the deletion loop removing every record
of type `loop` from the `lsblk` output. -/
def get_devices : List Device → List Device
  | [] => []
  | d :: rest => if d.dtype = "loop" then get_devices rest else d :: get_devices rest

/-- Python `each[key_type]` for the column names `get_key` may request. -/
def keyField (d : Device) (kt : String) : Option String :=
  if kt = "uuid" then d.uuid
  else if kt = "partuuid" then d.partuuid
  else if kt = "label" then d.label
  else if kt = "path" then some d.path
  else none

/-- The result loop of `get_key` (lines 293-296): the requested field of
the first record whose path is the device, `none` (Python `None`) when no
record matches or the field is null. -/
def lookupKey : List Device → String → String → Option String
  | [], _, _ => none
  | d :: rest, device, kt =>
    if d.path = device then keyField d kt else lookupKey rest device kt

/-- Embedding of `get_key` (lines 268-296): validates the key type (`ValueError`),
checks the device path exists (`FileNotFoundError`), then queries `lsblk`
for that device and scans the records. -/
def get_key (devices : List Device) (existingPaths : List String)
    (device keyType : String) : Except PyFatal (Option String) :=
  let kt := pyLower keyType
  if ¬ (kt = "uuid" ∨ kt = "partuuid" ∨ kt = "path" ∨ kt = "label") then .error .valueError
  else if ¬ device ∈ existingPaths then .error .fileNotFoundError
  else .ok (lookupKey devices device kt)

/-- Which of the three legacy-branch `lsblk` queries succeeded. -/
inductive LsblkCols where
  | full
  | noLabel
  | uuidOnly
deriving DecidableEq, Repr

/-- Whether the records expose a `partuuid` column (`"partuuid" in each`). -/
def hasPartuuidCol : LsblkCols → Bool
  | .full => true
  | .noLabel => true
  | .uuidOnly => false

/-- Whether the records expose a `label` column (`"label" in each`). -/
def hasLabelCol : LsblkCols → Bool
  | .full => true
  | .noLabel => false
  | .uuidOnly => false

/-- The matching loop of the legacy cached-identifier branch (lines
531-542): for each record in order, try `uuid`, then `partuuid`, then
`label`; the first hit prefixes and breaks; `none` when no record hits
(the Python variable then keeps the raw token). -/
def legacyScan (token : String) (cols : LsblkCols) : List Device → Option String
  | [] => none
  | d :: rest =>
    if d.uuid = some token then some ("UUID=" ++ token)
    else if hasPartuuidCol cols = true ∧ d.partuuid = some token then
      some ("PARTUUID=" ++ token)
    else if hasLabelCol cols = true ∧ d.label = some token then
      some ("LABEL=" ++ token)
    else legacyScan token cols rest

/-- The machine state `get_root_pointer` reads: the configured key type
(`SETTINGS["key"]`, default `partuuid`), the two optional configuration
files, the paths `os.path.exists` reports, the `lsblk` records, and which
legacy-branch column set is available. -/
structure SysState where
  settingsKey : String
  rootDeviceConf : Option String
  uuidConf : Option String
  existingPaths : List String
  devices : List Device
  lsblkCols : LsblkCols
deriving Repr

/-- Embedding of `get_root_pointer` (lines 489-559).  The result is `some s` for a
returned string, `none` for a returned Python `None` (the `path` key type
with an unresolvable device). -/
def get_root_pointer (st : SysState) : Except PyFatal (Option String) :=
  match st.rootDeviceConf with
  | some content =>
    match get_key st.devices st.existingPaths (firstLine content) st.settingsKey with
    | .error e => .error e
    | .ok v =>
      if pyLower st.settingsKey ≠ "path" then
        .ok (some (pyUpper st.settingsKey ++ "=" ++ pyOptStr v))
      else .ok v
  | none =>
    match st.uuidConf with
    | some content =>
      let token := firstLine content
      .ok (some ((legacyScan token st.lsblkCols st.devices).getD token))
    | none =>
      match st.devices.find? (fun d => d.mountpoint == some "/") with
      | some d =>
        match d.partuuid with
        | some p => if p = "" then .error (.exitCode 2) else .ok (some ("PARTUUID=" ++ p))
        | none => .ok (some "PARTUUID=None")
      | none => .error (.exitCode 2)

/-! ## Claim C2 -/

/-- Bool test for `p` being an initial segment of `s`. -/
def strHasPfx (p s : String) : Bool := p.data.isPrefixOf s.data

/-- The claim's well-formedness of a root pointer string: `KEY=value` with
`KEY` in UUID/PARTUUID/LABEL and a non-empty value. -/
def keyValueForm (s : String) : Bool :=
  (strHasPfx "UUID=" s && decide (5 < s.length)) ||
  (strHasPfx "PARTUUID=" s && decide (9 < s.length)) ||
  (strHasPfx "LABEL=" s && decide (6 < s.length))

/-- The state of the C2 failing input: no override file, a cached legacy
token `deadbeef`, and an enumerator output in which no uuid, partuuid or
label equals the token. -/
def c2State : SysState :=
  ⟨"partuuid", none, some "deadbeef\n", [],
    [⟨"/dev/sda1", "part", some "/", some "1111-2222", some "aaaa-bbbb", some "ROOT"⟩],
    .full⟩

/-- C2: the claim (a spec invariant) says `get_root_pointer` always
returns a well-formed `KEY=value` pointer (or a bare path for key type
`path`) or terminates fatally, and in particular never returns the raw
cached token when it matches no enumerated uuid/partuuid/label.  On the
C2 failing input the code falls out of the legacy matching loop without a
hit and returns the raw token `deadbeef`: not fatal, not `KEY=value`, and
the configured key type is not `path`. -/
theorem c2_raw_token_escapes :
    get_root_pointer c2State = .ok (some "deadbeef") ∧
    keyValueForm "deadbeef" = false ∧
    (pyLower c2State.settingsKey == "path") = false :=
  ⟨rfl, rfl, rfl⟩

/-! ## Claim C6 -/

/-- Whether a record matches the cached token in any column the query
exposed. -/
def devHit (token : String) (cols : LsblkCols) (d : Device) : Bool :=
  (d.uuid == some token) ||
  (hasPartuuidCol cols && (d.partuuid == some token)) ||
  (hasLabelCol cols && (d.label == some token))

/-- The pointer produced from a matching record: uuid beats partuuid beats
label within the record. -/
def devTag (token : String) (cols : LsblkCols) (d : Device) : String :=
  if d.uuid = some token then "UUID=" ++ token
  else if hasPartuuidCol cols = true ∧ d.partuuid = some token then "PARTUUID=" ++ token
  else "LABEL=" ++ token

/-- Devices of the C6 counterexample: the first record matches only by
label, the later record matches by uuid. -/
def c6State : SysState :=
  ⟨"partuuid", none, some "X", [],
    [⟨"/dev/sda1", "part", none, none, none, some "X"⟩,
     ⟨"/dev/sda2", "part", none, some "X", none, none⟩],
    .full⟩

/-- C6 counterexample: the claim says a uuid match wins over a label match
regardless of which device record is encountered first; the code scans
device by device, so the earlier record's label match wins over the later
record's uuid match and the resolver returns `LABEL=X`, not `UUID=X`. -/
theorem c6_counterexample_device_order_wins :
    get_root_pointer c6State = .ok (some "LABEL=X") ∧
    (("LABEL=X" : String) == "UUID=X") = false :=
  ⟨rfl, rfl⟩

theorem devHit_false_parts {token : String} {cols : LsblkCols} {e : Device}
    (h : devHit token cols e = false) :
    e.uuid ≠ some token ∧
      ¬(hasPartuuidCol cols = true ∧ e.partuuid = some token) ∧
      ¬(hasLabelCol cols = true ∧ e.label = some token) := by
  simp only [devHit, Bool.or_eq_false_iff, Bool.and_eq_false_iff, beq_eq_false_iff_ne] at h
  obtain ⟨⟨h1, h2⟩, h3⟩ := h
  refine ⟨h1, ?_, ?_⟩
  · rintro ⟨hp, he⟩
    rcases h2 with h2 | h2
    · rw [hp] at h2; simp at h2
    · exact h2 he
  · rintro ⟨hp, he⟩
    rcases h3 with h3 | h3
    · rw [hp] at h3; simp at h3
    · exact h3 he

/-- C6 (amended): in the legacy cached-identifier branch the scan is
device-major: the first record that matches in any exposed column decides
the result, and within that record a uuid match wins over a partuuid
match, which wins over a label match. -/
theorem c6_first_matching_device_decides (token : String) (cols : LsblkCols)
    (l1 l2 : List Device) (d : Device)
    (h1 : ∀ e ∈ l1, devHit token cols e = false)
    (h2 : devHit token cols d = true) :
    legacyScan token cols (l1 ++ d :: l2) = some (devTag token cols d) := by
  induction l1 with
  | nil =>
    simp only [List.nil_append, legacyScan, devTag]
    by_cases hu : d.uuid = some token
    · rw [if_pos hu, if_pos hu]
    · by_cases hp : hasPartuuidCol cols = true ∧ d.partuuid = some token
      · rw [if_neg hu, if_pos hp, if_neg hu, if_pos hp]
      · have hl : hasLabelCol cols = true ∧ d.label = some token := by
          simp only [devHit, Bool.or_eq_true, Bool.and_eq_true, beq_iff_eq] at h2
          rcases h2 with (h | h) | h
          · exact absurd h hu
          · exact absurd h hp
          · exact h
        rw [if_neg hu, if_neg hp, if_pos hl, if_neg hu, if_neg hp]
  | cons e es ih =>
    obtain ⟨he1, he2, he3⟩ := devHit_false_parts (h1 e (List.mem_cons_self _ _))
    simp only [List.cons_append, legacyScan]
    rw [if_neg he1, if_neg he2, if_neg he3]
    exact ih fun x hx => h1 x (List.mem_cons_of_mem _ hx)

/-- Witness for `c6_first_matching_device_decides`: a single record
matching by both uuid and label resolves by uuid. -/
theorem c6_first_matching_device_decides_witness :
    legacyScan "t" .full ([] ++ ⟨"/dev/sda9", "part", none, some "t", none, some "t"⟩ :: []) =
      some (devTag "t" .full ⟨"/dev/sda9", "part", none, some "t", none, some "t"⟩) :=
  c6_first_matching_device_decides "t" .full [] []
    ⟨"/dev/sda9", "part", none, some "t", none, some "t"⟩
    (by intro e he; simp at he) (by decide)

/-! ## Claim C7 -/

/-- The state of the C7 counterexample: the legacy branch with a loop
device whose uuid matches the token, ahead of a partition whose label
matches. -/
def c7State : SysState :=
  ⟨"partuuid", none, some "X", [],
    [⟨"/dev/loop0", "loop", none, some "X", none, none⟩,
     ⟨"/dev/sda2", "part", none, none, none, some "X"⟩],
    .full⟩

/-- The C7 state with the loop filter of `get_devices` applied to its
records. -/
def c7StateFiltered : SysState :=
  ⟨"partuuid", none, some "X", [], get_devices c7State.devices, .full⟩

/-- C7 counterexample: the claim says every branch of root-pointer
resolution excludes loop devices before matching.  The legacy branch of
`get_root_pointer` queries `lsblk` directly (without `get_devices` and
without even requesting the type column), so the loop device participates
in matching and decides the result: the unfiltered state resolves to
`UUID=X` via the loop device, while the loop-filtered records resolve to
`LABEL=X`. -/
theorem c7_counterexample_loop_device_matches :
    get_root_pointer c7State = .ok (some "UUID=X") ∧
    get_root_pointer c7StateFiltered = .ok (some "LABEL=X") :=
  ⟨rfl, rfl⟩

/-- C7 (amended): the loop exclusion exists only in `get_devices` (used by
the root-partition inference feeding UUID generation): its output holds
exactly the input records that are not of type `loop`, in order; the
branches of `get_root_pointer` match on unfiltered enumerator output. -/
theorem c7_get_devices_excludes_loop (rows : List Device) (d : Device) :
    d ∈ get_devices rows ↔ d ∈ rows ∧ (d.dtype == "loop") = false := by
  induction rows with
  | nil => simp [get_devices]
  | cons r rest ih =>
    by_cases hr : r.dtype = "loop"
    · rw [get_devices, if_pos hr, ih]
      constructor
      · rintro ⟨hm, hl⟩
        exact ⟨List.mem_cons_of_mem _ hm, hl⟩
      · rintro ⟨hm, hl⟩
        rcases List.mem_cons.mp hm with h | h
        · subst h; rw [beq_eq_false_iff_ne] at hl; exact absurd hr hl
        · exact ⟨h, hl⟩
    · rw [get_devices, if_neg hr]
      constructor
      · intro hm
        rcases List.mem_cons.mp hm with h | h
        · subst h
          exact ⟨List.mem_cons_self _ _, beq_eq_false_iff_ne.mpr hr⟩
        · obtain ⟨hm2, hl⟩ := ih.mp h
          exact ⟨List.mem_cons_of_mem _ hm2, hl⟩
      · rintro ⟨hm, hl⟩
        rcases List.mem_cons.mp hm with h | h
        · subst h; exact List.mem_cons_self _ _
        · exact List.mem_cons_of_mem _ (ih.mpr ⟨h, hl⟩)

/-! ## Entry renderers (lines 63-94)

Both renderers build a four-element line list and return it as a list, a
tuple or a newline-joined string depending on the `state` flag.  The
module-level constant `DISTRO` (`distro.name().replace(" ", "_")`) is an
explicit `distro` argument here. -/

/-- The three return shapes of the renderers: joined string (`state=None`),
list (`state=True`), tuple (`state=False`). -/
inductive ConfContents where
  | pstr (s : String)
  | plist (l : List String)
  | ptuple (l : List String)
deriving DecidableEq, Repr

/-- Embedding of `get_conf_file_contents` (lines 63-74). -/
def get_conf_file_contents (distro rootPointer bootArgs : String)
    (state : Option Bool) : ConfContents :=
  let contents := ["title  " ++ distro,
                   "linux   /" ++ distro ++ "/vmlinuz",
                   "initrd  /" ++ distro ++ "/initrd.img",
                   "options root=" ++ rootPointer ++ " " ++ bootArgs]
  match state with
  | some true => .plist contents
  | some false => .ptuple contents
  | none => .pstr (String.intercalate "\n" contents)

/-- Python `del dirs[dirs.index(x)]`: removes the first occurrence, `none` models
the `ValueError` raised by `index` when `x` is absent. -/
def removeFirst (x : String) : List String → Option (List String)
  | [] => none
  | y :: rest => if y = x then some rest else (removeFirst x rest).map (y :: ·)

/-- Embedding of `get_new_conf_file_contents` (lines 77-94): discover the remaining
directory under the EFI root after deleting `EFI`, `loader` and the distro
entry (`IndexError` when nothing remains), then render the four lines. -/
def get_new_conf_file_contents (efiDirs : List String)
    (distro rootPointer bootArgs version : String) (state : Option Bool) :
    Except PyFatal ConfContents :=
  match removeFirst "EFI" efiDirs with
  | none => .error .valueError
  | some d1 =>
    match removeFirst "loader" d1 with
    | none => .error .valueError
    | some d2 =>
      match removeFirst distro d2 with
      | none => .error .valueError
      | some d3 =>
        match d3 with
        | [] => .error .indexError
        | randDir :: _ =>
          let contents := ["title   " ++ distro,
                           "linux   " ++ randDir ++ "/" ++ version ++ "/linux",
                           "initrd  " ++ randDir ++ "/" ++ version ++ "/initrd.img-" ++ version,
                           "options root=" ++ rootPointer ++ " " ++ bootArgs]
          match state with
          | some true => .ok (.plist contents)
          | some false => .ok (.ptuple contents)
          | none => .ok (.pstr (String.intercalate "\n" contents))

/-! ## Claim C8 -/

/-- C8: for every distro, root pointer and boot arguments (and version and
directory listing for the new-layout variant), the renderer produces
exactly four lines — title, linux path, initrd path, options — and the
three representations selected by the mode flag (joined string for `None`,
list for `True`, tuple for `False`) hold the same four lines in the same
order (the joined string is the newline join of exactly that list). -/
theorem c8_three_representations_agree (distro rp ba version : String)
    (efiDirs : List String) :
    (∃ l, l.length = 4 ∧
      get_conf_file_contents distro rp ba (some true) = .plist l ∧
      get_conf_file_contents distro rp ba (some false) = .ptuple l ∧
      get_conf_file_contents distro rp ba none = .pstr (String.intercalate "\n" l)) ∧
    (∀ l, get_new_conf_file_contents efiDirs distro rp ba version (some true) = .ok (.plist l) →
      l.length = 4 ∧
      get_new_conf_file_contents efiDirs distro rp ba version (some false) = .ok (.ptuple l) ∧
      get_new_conf_file_contents efiDirs distro rp ba version none =
        .ok (.pstr (String.intercalate "\n" l))) := by
  constructor
  · exact ⟨["title  " ++ distro,
            "linux   /" ++ distro ++ "/vmlinuz",
            "initrd  /" ++ distro ++ "/initrd.img",
            "options root=" ++ rp ++ " " ++ ba], rfl, rfl, rfl, rfl⟩
  · intro l h
    unfold get_new_conf_file_contents at h ⊢
    cases h1 : removeFirst "EFI" efiDirs with
    | none => simp [h1] at h
    | some d1 =>
      simp only [h1] at h ⊢
      cases h2 : removeFirst "loader" d1 with
      | none => simp [h2] at h
      | some d2 =>
        simp only [h2] at h ⊢
        cases h3 : removeFirst distro d2 with
        | none => simp [h3] at h
        | some d3 =>
          simp only [h3] at h ⊢
          cases d3 with
          | nil => simp at h
          | cons randDir rest =>
            simp only [Except.ok.injEq, ConfContents.plist.injEq] at h
            subst h
            exact ⟨rfl, rfl, rfl⟩

/-- Witness for `c8_three_representations_agree` at a concrete directory
listing on which the new-layout discovery succeeds. -/
theorem c8_three_representations_agree_witness :
    (∃ l, l.length = 4 ∧
      get_conf_file_contents "D" "PARTUUID=abcd" "quiet splash" (some true) = .plist l ∧
      get_conf_file_contents "D" "PARTUUID=abcd" "quiet splash" (some false) = .ptuple l ∧
      get_conf_file_contents "D" "PARTUUID=abcd" "quiet splash" none =
        .pstr (String.intercalate "\n" l)) ∧
    (["title   D", "linux   x/5.10/linux", "initrd  x/5.10/initrd.img-5.10",
        "options root=PARTUUID=abcd quiet splash"].length = 4 ∧
      get_new_conf_file_contents ["EFI", "loader", "D", "x"] "D" "PARTUUID=abcd"
        "quiet splash" "5.10" (some false) =
        .ok (.ptuple ["title   D", "linux   x/5.10/linux",
          "initrd  x/5.10/initrd.img-5.10", "options root=PARTUUID=abcd quiet splash"]) ∧
      get_new_conf_file_contents ["EFI", "loader", "D", "x"] "D" "PARTUUID=abcd"
        "quiet splash" "5.10" none =
        .ok (.pstr (String.intercalate "\n" ["title   D", "linux   x/5.10/linux",
          "initrd  x/5.10/initrd.img-5.10", "options root=PARTUUID=abcd quiet splash"]))) :=
  ⟨(c8_three_representations_agree "D" "PARTUUID=abcd" "quiet splash" "5.10"
      ["EFI", "loader", "D", "x"]).1,
   (c8_three_representations_agree "D" "PARTUUID=abcd" "quiet splash" "5.10"
      ["EFI", "loader", "D", "x"]).2
     ["title   D", "linux   x/5.10/linux", "initrd  x/5.10/initrd.img-5.10",
       "options root=PARTUUID=abcd quiet splash"] rfl⟩

/-! ## Default-entry reconciliation (lines 147-218) -/

/-- One parsed entry of `bootctl list` output: title, whether it is
flagged `(default)`, and its identifier. -/
structure BootEntry where
  title : String
  isDefault : Bool
  id : String
deriving DecidableEq, Repr

/-- Embedding of `get_default_boot_entry` (lines 169-176): the id of the first entry
flagged default, Python `None` when there is none. -/
def get_default_boot_entry (entries : List BootEntry) : Option String :=
  (entries.find? (·.isDefault)).map (·.id)

/-- Python `str.split()` with no separator: split on whitespace runs,
dropping empty pieces; `cur` is the pending word reversed. -/
def wordsAux (cur : List Char) : List Char → List String
  | [] => if cur.isEmpty then [] else [cur.reverse.asString]
  | c :: rest =>
    if c.isWhitespace then
      if cur.isEmpty then wordsAux [] rest
      else cur.reverse.asString :: wordsAux [] rest
    else wordsAux (c :: cur) rest

/-- Embedding of `read_defaults_file` (lines 199-202): `conf.read().split()[0]`; `none`
models the `IndexError` on a file with no tokens. -/
def read_defaults_file (content : String) : Option String :=
  (wordsAux [] content.data).head?

/-- Embedding of `check_default_entry` (lines 205-218): compare the live default entry
with the declared intent; the intent sentinel `#` always reads as
synchronized. -/
def check_default_entry (content : String) (entries : List BootEntry) :
    Except PyFatal Bool :=
  match read_defaults_file content with
  | none => .error .indexError
  | some intended =>
    if get_default_boot_entry entries = some intended then .ok true
    else if intended = "#" then .ok true
    else .ok false

/-! ## Claim C9 -/

/-- C9: whenever the first token of the declared-intent file is the
sentinel `#`, `check_default_entry` returns `True` regardless of which
entry (if any) is the live default. -/
theorem c9_wildcard_intent_always_synchronized (content : String)
    (entries : List BootEntry) (h : read_defaults_file content = some "#") :
    check_default_entry content entries = .ok true := by
  unfold check_default_entry
  rw [h]
  by_cases hd : get_default_boot_entry entries = some "#"
  · simp [hd]
  · simp [hd]

/-- Witness for `c9_wildcard_intent_always_synchronized`: a commented-out
intent file against a live default entry. -/
theorem c9_wildcard_intent_always_synchronized_witness :
    read_defaults_file "# default_entry_here.conf\n# comment" = some "#" ∧
    check_default_entry "# default_entry_here.conf\n# comment"
      [⟨"Drauger OS", true, "Drauger_OS.conf"⟩] = .ok true :=
  ⟨rfl, c9_wildcard_intent_always_synchronized "# default_entry_here.conf\n# comment"
    [⟨"Drauger OS", true, "Drauger_OS.conf"⟩] rfl⟩

/-! ## Claim C10 -/

/-- Observable actions of `set_as_default_entry` (lines 179-196), in
order: stdout prints, stderr prints (ANSI colour codes omitted), the
defaults-file rewrite, and the `bootctl set-default` invocation. -/
inductive OutEvent where
  | out (msg : String)
  | err (msg : String)
  | writeDefaultsFile (entry : String)
  | runSetDefault (entry : String)
deriving DecidableEq, Repr

/-- The trailing diagnostic of line 196 (its `bootctl list` hint text
elided). -/
def notFoundMsg : String := "ID Not found. Please provide a valid ID."

/-- Embedding of `set_as_default_entry` (lines 179-196) as its ordered trace of
observable actions; `setOk` tells whether `bootctl set-default` exits
zero (uniform over the scan, which invokes it at most once per matching
entry). -/
def set_as_default_entry (entries : List BootEntry) (entry : String)
    (editFile : Bool) (setOk : Bool) : List OutEvent :=
  (entries.map fun e =>
    if e.id = entry then
      (if e.isDefault then [OutEvent.err "Already Default Entry"] else [])
      ++ (if editFile then [OutEvent.writeDefaultsFile entry] else [])
      ++ [OutEvent.runSetDefault entry]
      ++ (if setOk then [] else [OutEvent.err "CANNOT SET INTENDED DEFAULT",
            OutEvent.err "Error was:", OutEvent.err "None"])
      ++ [OutEvent.out "SUCCESS!"]
    else []).flatten
  ++ [OutEvent.err notFoundMsg]

/-- C10: for every entry argument, `set_as_default_entry` emits the
"ID Not found" diagnostic to the error stream as its final action — also
when the id matched an entry and the set-default command succeeded — and
it prints "SUCCESS!" for every matching entry even when the set-default
command exits non-zero. -/
theorem c10_not_found_always_and_success_on_failure (entries : List BootEntry)
    (entry : String) (editFile setOk : Bool) :
    (set_as_default_entry entries entry editFile setOk).getLast? =
      some (OutEvent.err notFoundMsg) ∧
    (∀ e ∈ entries, e.id = entry →
      OutEvent.out "SUCCESS!" ∈ set_as_default_entry entries entry editFile setOk) := by
  constructor
  · unfold set_as_default_entry
    rw [List.getLast?_append]
    rfl
  · intro e he hid
    unfold set_as_default_entry
    refine List.mem_append_left _ ?_
    rw [List.mem_flatten]
    refine ⟨(if e.isDefault then [OutEvent.err "Already Default Entry"] else [])
      ++ (if editFile then [OutEvent.writeDefaultsFile entry] else [])
      ++ [OutEvent.runSetDefault entry]
      ++ (if setOk then [] else [OutEvent.err "CANNOT SET INTENDED DEFAULT",
            OutEvent.err "Error was:", OutEvent.err "None"])
      ++ [OutEvent.out "SUCCESS!"], ?_, ?_⟩
    · refine List.mem_map.mpr ⟨e, he, ?_⟩
      rw [if_pos hid]
    · simp

/-- Witness for `c10_not_found_always_and_success_on_failure`: a matching
entry with a failing `bootctl set-default` call still prints "SUCCESS!",
and the final action is the "ID Not found" diagnostic. -/
theorem c10_not_found_always_and_success_on_failure_witness :
    (set_as_default_entry [⟨"T", false, "x.conf"⟩] "x.conf" false false).getLast? =
      some (OutEvent.err notFoundMsg) ∧
    OutEvent.out "SUCCESS!" ∈ set_as_default_entry [⟨"T", false, "x.conf"⟩] "x.conf" false false :=
  ⟨(c10_not_found_always_and_success_on_failure [⟨"T", false, "x.conf"⟩] "x.conf" false false).1,
   (c10_not_found_always_and_success_on_failure [⟨"T", false, "x.conf"⟩] "x.conf" false false).2
     ⟨"T", false, "x.conf"⟩ (by decide) rfl⟩

end SystemdBootManager
